import Mathlib

/-!
Shallow embedding of the YUV to RGB converter in
`src/app/src/main/cpp/yuv_converter.cpp` (function
`Java_com_signaturelens_core_native_NativeProcessor_convertYuvToRgb`
plus the `clamp` helper), together with proofs of the specified
properties.

Modelling choices:
* A byte plane obtained from `GetDirectBufferAddress` is a total map
  `Int → Nat`; reads mask with `&&& 0xFF` exactly as the source does.
  A buffer argument is `Option (Int → Nat)`: `none` models a pointer
  that does not resolve to a direct address.
* The C `float` multiplications `1.402f * V`, `0.344136f * U`,
  `0.714136f * V`, `1.772f * U` are modelled exactly: each constant
  literal is stored as its binary32 value (an integer significand over
  a power of two), the product with the integer operand is formed as an
  exact dyadic rational and rounded to the nearest binary32 value
  (ties to even, 24 bit significand), and the C cast `(int)` truncates
  toward zero.  All operands stay inside the normal binary32 range, so
  no overflow, underflow or subnormal handling is needed.
* The nested `for` loops are embedded as the list of (index, value)
  writes they perform, in program order; the final output buffer is the
  left fold of `Function.update` over that list.
* The single error path logs the string literal from the source and
  returns with the output untouched.
-/

namespace YuvConverter

/-- A byte plane: a total map from (pointer offset) indices to stored
byte values.  Reads in the embedding mask with `&&& 0xFF`, mirroring
the masking in the source. -/
abbrev Plane := Int → Nat

/-- Bit length of a natural number, computed by fuelled structural
recursion so that it reduces inside the kernel.  The fuel bounds the
number of binary digits; all inputs in this development are below
`2 ^ 64`. -/
def bitLenAux : Nat → Nat → Nat
  | 0, _ => 0
  | fuel + 1, n => if n = 0 then 0 else bitLenAux fuel (n / 2) + 1

/-- Bit length (number of binary digits) for inputs below `2 ^ 64`. -/
def bitLen (n : Nat) : Nat := bitLenAux 64 n

/-- Magnitude of `(int)(c * v)` for a nonnegative operand: the exact
product `(s / 2 ^ sh) * vab` is rounded to the nearest binary32 value
(round to nearest, ties to even, 24 bit significand) and then
truncated toward zero.  `s` is the 24 bit significand of the constant
and `sh` its binary scale. -/
def truncProd (s sh vab : Nat) : Nat :=
  let a := s * vab
  let t := bitLen a
  if t ≤ 24 then a / 2 ^ sh
  else
    let k := t - 24
    let q := a / 2 ^ k
    let r := a % 2 ^ k
    let half := 2 ^ (k - 1)
    let q2 := if half < r then q + 1 else if r < half then q else q + q % 2
    q2 * 2 ^ k / 2 ^ sh

/-- The C expression `(int)(c * v)` where `c` is the binary32 constant
`s / 2 ^ sh` and `v` an integer operand: binary32 multiplication
(round to nearest, ties to even) followed by truncation toward zero.
Both operations are symmetric in sign, so the sign is split off. -/
def truncF32Mul (s sh : Nat) (v : Int) : Int :=
  if v < 0 then -(truncProd s sh v.natAbs) else truncProd s sh v.natAbs

/-- Binary32 significand of the literal `1.402f`; its value is
`11760828 / 2 ^ 23`. -/
def c1402s : Nat := 11760828

/-- Binary32 significand of the literal `0.344136f`; its value is
`11547288 / 2 ^ 25`. -/
def c0344136s : Nat := 11547288

/-- Binary32 significand of the literal `0.714136f`; its value is
`11981214 / 2 ^ 24`. -/
def c0714136s : Nat := 11981214

/-- Binary32 significand of the literal `1.772f`; its value is
`14864613 / 2 ^ 23`. -/
def c1772s : Nat := 14864613

/-- The `clamp` helper, source lines 9 to 13. -/
def clamp (v : Int) : Int :=
  if v < 0 then 0 else if 255 < v then 255 else v

/-- The five geometry parameters of the conversion entry point
(`jint` arguments). -/
structure Geometry where
  width : Int
  height : Int
  yRowStride : Int
  uvRowStride : Int
  uvPixelStride : Int

/-- Luma index, source line 41: `yIdx = y * yRowStride + x`. -/
def yIdx (g : Geometry) (x y : Nat) : Int :=
  (y : Int) * g.yRowStride + (x : Int)

/-- Chroma index, source lines 42 to 44:
`uvIdx = (y / 2) * uvRowStride + (x / 2) * uvPixelStride`, where the
divisions are C integer divisions of the nonnegative loop counters. -/
def uvIdx (g : Geometry) (x y : Nat) : Int :=
  ((y / 2 : Nat) : Int) * g.uvRowStride + ((x / 2 : Nat) : Int) * g.uvPixelStride

/-- Source line 46: `Y = srcY[yIdx] & 0xFF`. -/
def lumaAt (srcY : Plane) (g : Geometry) (x y : Nat) : Int :=
  (Int.ofNat (srcY (yIdx g x y) &&& 0xFF))

/-- Source line 47: `U = (srcU[uvIdx] & 0xFF) - 128`. -/
def chromaU (srcU : Plane) (g : Geometry) (x y : Nat) : Int :=
  (Int.ofNat (srcU (uvIdx g x y) &&& 0xFF)) - 128

/-- Source line 48: `V = (srcV[uvIdx] & 0xFF) - 128`. -/
def chromaV (srcV : Plane) (g : Geometry) (x y : Nat) : Int :=
  (Int.ofNat (srcV (uvIdx g x y) &&& 0xFF)) - 128

/-- Source line 50: `R = clamp(Y + (int)(1.402f * V))`. -/
def rOf (yv v : Int) : Int := clamp (yv + truncF32Mul c1402s 23 v)

/-- Source line 51:
`G = clamp(Y - (int)(0.344136f * U) - (int)(0.714136f * V))`. -/
def gOf (yv u v : Int) : Int :=
  clamp (yv - truncF32Mul c0344136s 25 u - truncF32Mul c0714136s 24 v)

/-- Source line 52: `B = clamp(Y + (int)(1.772f * U))`. -/
def bOf (yv u : Int) : Int := clamp (yv + truncF32Mul c1772s 23 u)

/-- Source line 54, right hand side:
`(0xFF << 24) | (R << 16) | (G << 8) | B`, stored into a `uint32_t`
slot.  The channel values are in `[0, 255]`, so the natural number
built here is the stored 32 bit pattern. -/
def packPixel (r gc b : Int) : Nat :=
  (0xFF <<< 24) ||| (r.toNat <<< 16) ||| (gc.toNat <<< 8) ||| b.toNat

/-- The packed value computed for pixel `(x, y)` by the loop body,
source lines 41 to 54. -/
def pixelAt (srcY srcU srcV : Plane) (g : Geometry) (x y : Nat) : Nat :=
  packPixel
    (rOf (lumaAt srcY g x y) (chromaV srcV g x y))
    (gOf (lumaAt srcY g x y) (chromaU srcU g x y) (chromaV srcV g x y))
    (bOf (lumaAt srcY g x y) (chromaU srcU g x y))

/-- The writes performed by one iteration of the outer loop (the inner
loop over `x`), in program order: pixel `(x, y)` goes to output index
`y * width + x` (source line 54). -/
def rowWrites (srcY srcU srcV : Plane) (g : Geometry) (y : Nat) : List (Int × Nat) :=
  (List.range g.width.toNat).map fun (x : Nat) =>
    ((y : Int) * g.width + (x : Int), pixelAt srcY srcU srcV g x y)

/-- All writes performed by the nested loops (source lines 39 to 56),
in program order.  A nonpositive `width` or `height` yields an empty
list, exactly as the C loop conditions do. -/
def traceWrites (srcY srcU srcV : Plane) (g : Geometry) : List (Int × Nat) :=
  (List.range g.height.toNat).flatMap (rowWrites srcY srcU srcV g)

/-- Replay a list of (index, value) writes over an initial buffer
state, in order. -/
def applyWrites (dst : Plane) (l : List (Int × Nat)) : Plane :=
  l.foldl (fun f p => Function.update f p.1 p.2) dst

/-- The output buffer state after a successful conversion. -/
def convertedOut (srcY srcU srcV : Plane) (g : Geometry) (dst : Plane) : Plane :=
  applyWrites dst (traceWrites srcY srcU srcV g)

/-- Result of one call: the final output buffer (unchanged on the
error path) and the emitted log lines. -/
structure ConvResult where
  outBuf : Option Plane
  logs : List String

/-- The JNI entry point, source lines 15 to 57: resolve the four
buffers; if any fails to resolve, log once and return without writing;
otherwise run the conversion loops. -/
def convertYuvToRgb (yBuffer uBuffer vBuffer : Option Plane) (g : Geometry)
    (outBuffer : Option Plane) : ConvResult :=
  match yBuffer, uBuffer, vBuffer, outBuffer with
  | some srcY, some srcU, some srcV, some dst =>
      { outBuf := some (convertedOut srcY srcU srcV g dst), logs := [] }
  | _, _, _, _ => { outBuf := outBuffer, logs := ["Invalid buffers"] }

/-- The per pixel formula exactly as section 4.1 of the spec states
it: luma index `y * yRowStride + x`, chroma index
`(y / 2) * uvRowStride + (x / 2) * uvPixelStride` with floor division,
`U` and `V` centred by subtracting 128, the three clamped channel
formulas with truncation toward zero of the binary32 products, and the
packing `0xFF000000 | (R << 16) | (G << 8) | B`. -/
def specPixel (yPlane uPlane vPlane : Plane) (g : Geometry) (x y : Nat) : Nat :=
  let yv : Int := Int.ofNat (yPlane ((y : Int) * g.yRowStride + (x : Int)) &&& 0xFF)
  let uv : Int := ((y / 2 : Nat) : Int) * g.uvRowStride + ((x / 2 : Nat) : Int) * g.uvPixelStride
  let u : Int := Int.ofNat (uPlane uv &&& 0xFF) - 128
  let v : Int := Int.ofNat (vPlane uv &&& 0xFF) - 128
  let r := clamp (yv + truncF32Mul c1402s 23 v)
  let gc := clamp (yv - truncF32Mul c0344136s 25 u - truncF32Mul c0714136s 24 v)
  let b := clamp (yv + truncF32Mul c1772s 23 u)
  0xFF000000 ||| (r.toNat <<< 16) ||| (gc.toNat <<< 8) ||| b.toNat

/-- Concrete 2 by 2 test frame from the spec: luma plane `[16,16,16,16]`. -/
def yPlane22 : Plane := fun i => [16, 16, 16, 16].getD i.toNat 0

/-- Concrete 2 by 2 test frame: chroma U plane `[128]`. -/
def uPlane22 : Plane := fun i => [128].getD i.toNat 0

/-- Concrete 2 by 2 test frame: chroma V plane `[128]`. -/
def vPlane22 : Plane := fun i => [128].getD i.toNat 0

/-- Geometry of the concrete 2 by 2 scenario: `width=2`, `height=2`,
`yRowStride=2`, `uvRowStride=1`, `uvPixelStride=1`. -/
def g22 : Geometry := ⟨2, 2, 2, 1, 1⟩

/-- An all zero initial output buffer for concrete runs. -/
def dst0 : Plane := fun _ => 0

/-- An all nines initial output buffer for concrete runs. -/
def dst9 : Plane := fun _ => 9

/-- An all zero byte plane. -/
def zeroPlane : Plane := fun _ => 0

/-- A 4 by 4 luma plane: byte 255 at offset 0, zero elsewhere. -/
def yPlane44 : Plane := fun i => if i = 0 then 255 else 0

/-- A 4 by 4 luma plane: byte 9 at offset 0, zero elsewhere. -/
def yPlane44W : Plane := fun i => if i = 0 then 9 else 0

/-- A constant chroma plane holding raw byte 128 (centred value 0). -/
def uPlane44 : Plane := fun _ => 128

/-- A constant chroma plane holding raw byte 128 (centred value 0). -/
def vPlane44A : Plane := fun _ => 128

/-- A constant chroma plane holding raw byte 178 (centred value 50). -/
def vPlane44B : Plane := fun _ => 178

/-- Geometry of a 4 by 4 frame: `yRowStride=4`, `uvRowStride=2`,
`uvPixelStride=1`. -/
def g44 : Geometry := ⟨4, 4, 4, 2, 1⟩

/-- A geometry with zero width, used to exercise the silent no-op
path. -/
def g0w : Geometry := ⟨0, 2, 2, 1, 1⟩

theorem applyWrites_cons (dst : Plane) (p : Int × Nat) (l : List (Int × Nat)) :
    applyWrites dst (p :: l) = applyWrites (Function.update dst p.1 p.2) l := rfl

theorem applyWrites_append (dst : Plane) (l1 l2 : List (Int × Nat)) :
    applyWrites dst (l1 ++ l2) = applyWrites (applyWrites dst l1) l2 := by
  simp [applyWrites, List.foldl_append]

theorem applyWrites_of_not_mem (dst : Plane) (l : List (Int × Nat)) (i : Int)
    (h : i ∉ l.map Prod.fst) : applyWrites dst l i = dst i := by
  induction l generalizing dst with
  | nil => rfl
  | cons p t ih =>
      simp only [List.map_cons, List.mem_cons, not_or] at h
      rw [applyWrites_cons, ih _ h.2, Function.update_noteq h.1]

theorem writeIdx_inj {w : Int} {x y x' y' : Nat} (hx : (x : Int) < w) (hx' : (x' : Int) < w)
    (h : (y : Int) * w + (x : Int) = (y' : Int) * w + (x' : Int)) : y = y' ∧ x = x' := by
  have hx0 : (0 : Int) ≤ (x : Int) := Int.ofNat_nonneg x
  have hx'0 : (0 : Int) ≤ (x' : Int) := Int.ofNat_nonneg x'
  have hw : (0 : Int) < w := lt_of_le_of_lt hx0 hx
  rcases Nat.lt_trichotomy y y' with hy | hy | hy
  · exfalso
    have h1 : ((y : Int) + 1) ≤ (y' : Int) := by exact_mod_cast hy
    have h2 : ((y : Int) + 1) * w ≤ (y' : Int) * w :=
      mul_le_mul_of_nonneg_right h1 (le_of_lt hw)
    have h3 : ((y : Int) + 1) * w = (y : Int) * w + w := by ring
    linarith
  · refine ⟨hy, ?_⟩
    have h4 := h
    rw [hy] at h4
    have h5 : (x : Int) = (x' : Int) := by linarith
    exact_mod_cast h5
  · exfalso
    have h1 : ((y' : Int) + 1) ≤ (y : Int) := by exact_mod_cast hy
    have h2 : ((y' : Int) + 1) * w ≤ (y : Int) * w :=
      mul_le_mul_of_nonneg_right h1 (le_of_lt hw)
    have h3 : ((y' : Int) + 1) * w = (y' : Int) * w + w := by ring
    linarith

theorem range_split (n k : Nat) (h : k < n) :
    List.range n = List.range k ++ k :: (List.range (n - k - 1)).map (fun m => k + m + 1) := by
  have h1 : n = k + (n - k - 1 + 1) := by omega
  conv_lhs => rw [h1]
  rw [List.range_add, List.range_succ_eq_map, List.map_cons, List.map_map]
  simp [Function.comp_def, Nat.add_comm, Nat.add_assoc, Nat.add_left_comm]

theorem mem_map_fst_flatMap_rows (srcY srcU srcV : Plane) (g : Geometry) (l : List Nat)
    (j : Int) :
    j ∈ ((l.flatMap (rowWrites srcY srcU srcV g)).map Prod.fst) ↔
      ∃ y' ∈ l, ∃ x' < g.width.toNat, (y' : Int) * g.width + (x' : Int) = j := by
  rw [List.map_flatMap, List.mem_flatMap]
  constructor
  · rintro ⟨y', hy', hj⟩
    refine ⟨y', hy', ?_⟩
    unfold rowWrites at hj
    rw [List.map_map] at hj
    obtain ⟨x', hx', he⟩ := List.mem_map.mp hj
    exact ⟨x', List.mem_range.mp hx', he⟩
  · rintro ⟨y', hy', x', hx', he⟩
    refine ⟨y', hy', ?_⟩
    unfold rowWrites
    rw [List.map_map]
    exact List.mem_map.mpr ⟨x', List.mem_range.mpr hx', he⟩

theorem traceWrites_split (srcY srcU srcV : Plane) (g : Geometry) (x y : Nat)
    (hx : x < g.width.toNat) (hy : y < g.height.toNat) :
    ∃ A B, traceWrites srcY srcU srcV g =
        A ++ ((y : Int) * g.width + (x : Int), pixelAt srcY srcU srcV g x y) :: B ∧
      ((y : Int) * g.width + (x : Int)) ∉ A.map Prod.fst ∧
      ((y : Int) * g.width + (x : Int)) ∉ B.map Prod.fst := by
  have hxw : (x : Int) < g.width := by omega
  refine ⟨(List.range y).flatMap (rowWrites srcY srcU srcV g) ++
      (List.range x).map
        (fun (x' : Nat) => ((y : Int) * g.width + (x' : Int), pixelAt srcY srcU srcV g x' y)),
      ((List.range (g.width.toNat - x - 1)).map
        (fun (m : Nat) => ((y : Int) * g.width + ((x + m + 1 : Nat) : Int),
          pixelAt srcY srcU srcV g (x + m + 1) y))) ++
      ((List.range (g.height.toNat - y - 1)).map
        (fun (m : Nat) => y + m + 1)).flatMap (rowWrites srcY srcU srcV g), ?_, ?_, ?_⟩
  · unfold traceWrites
    rw [range_split _ y hy, List.flatMap_append, List.flatMap_cons]
    conv_lhs =>
      rw [show rowWrites srcY srcU srcV g y =
        (List.range x).map
          (fun (x' : Nat) =>
            ((y : Int) * g.width + (x' : Int), pixelAt srcY srcU srcV g x' y)) ++
        ((y : Int) * g.width + (x : Int), pixelAt srcY srcU srcV g x y) ::
        (List.range (g.width.toNat - x - 1)).map
          (fun (m : Nat) => ((y : Int) * g.width + ((x + m + 1 : Nat) : Int),
            pixelAt srcY srcU srcV g (x + m + 1) y)) from by
          unfold rowWrites
          rw [range_split _ x hx, List.map_append, List.map_cons, List.map_map]
          rfl]
    simp [List.append_assoc]
  · intro hmem
    rw [List.map_append, List.mem_append] at hmem
    rcases hmem with hmem | hmem
    · obtain ⟨y', hy', x', hx', he⟩ :=
        (mem_map_fst_flatMap_rows srcY srcU srcV g _ _).mp hmem
      have hy'y : y' < y := List.mem_range.mp hy'
      have hx'w : (x' : Int) < g.width := by omega
      obtain ⟨h1, h2⟩ := writeIdx_inj hx'w hxw he
      omega
    · rw [List.map_map] at hmem
      obtain ⟨x', hx', he⟩ := List.mem_map.mp hmem
      have hx'x : x' < x := List.mem_range.mp hx'
      have hx'w : (x' : Int) < g.width := by omega
      obtain ⟨h1, h2⟩ := writeIdx_inj hx'w hxw he
      omega
  · intro hmem
    rw [List.map_append, List.mem_append] at hmem
    rcases hmem with hmem | hmem
    · rw [List.map_map] at hmem
      obtain ⟨m, hm, he⟩ := List.mem_map.mp hmem
      have hmlt : m < g.width.toNat - x - 1 := List.mem_range.mp hm
      have hx'w : ((x + m + 1 : Nat) : Int) < g.width := by omega
      obtain ⟨h1, h2⟩ := writeIdx_inj hx'w hxw he
      omega
    · obtain ⟨y', hy', x', hx', he⟩ :=
        (mem_map_fst_flatMap_rows srcY srcU srcV g _ _).mp hmem
      obtain ⟨m, hm, rfl⟩ := List.mem_map.mp hy'
      have hx'w : (x' : Int) < g.width := by omega
      obtain ⟨h1, h2⟩ := writeIdx_inj hx'w hxw he
      omega

theorem convertedOut_at (srcY srcU srcV dst : Plane) (g : Geometry) (x y : Nat)
    (hx : x < g.width.toNat) (hy : y < g.height.toNat) :
    convertedOut srcY srcU srcV g dst ((y : Int) * g.width + (x : Int)) =
      pixelAt srcY srcU srcV g x y := by
  obtain ⟨A, B, hAB, hA, hB⟩ := traceWrites_split srcY srcU srcV g x y hx hy
  unfold convertedOut
  rw [hAB, applyWrites_append, applyWrites_cons,
    applyWrites_of_not_mem _ _ _ hB, Function.update_same]

theorem traceWrites_count (srcY srcU srcV : Plane) (g : Geometry) (x y : Nat)
    (hx : x < g.width.toNat) (hy : y < g.height.toNat) :
    ((traceWrites srcY srcU srcV g).map Prod.fst).count ((y : Int) * g.width + (x : Int)) = 1 := by
  obtain ⟨A, B, hAB, hA, hB⟩ := traceWrites_split srcY srcU srcV g x y hx hy
  rw [hAB, List.map_append, List.map_cons, List.count_append, List.count_cons]
  rw [List.count_eq_zero.mpr hA, List.count_eq_zero.mpr hB]
  simp

theorem traceWrites_idx_bounds (srcY srcU srcV : Plane) (g : Geometry) (j : Int)
    (hj : j ∈ (traceWrites srcY srcU srcV g).map Prod.fst) :
    0 ≤ j ∧ j < g.width * g.height := by
  obtain ⟨y', hy', x', hx', he⟩ :=
    (mem_map_fst_flatMap_rows srcY srcU srcV g _ _).mp hj
  have hyh : y' < g.height.toNat := List.mem_range.mp hy'
  have hx'w : (x' : Int) < g.width := by omega
  have hx'0 : (0 : Int) ≤ (x' : Int) := Int.ofNat_nonneg x'
  have hw : (0 : Int) < g.width := lt_of_le_of_lt hx'0 hx'w
  have hy'0 : (0 : Int) ≤ (y' : Int) := Int.ofNat_nonneg y'
  have hy'h : (y' : Int) + 1 ≤ g.height := by omega
  subst he
  constructor
  · have := mul_nonneg hy'0 (le_of_lt hw)
    linarith
  · have h2 : ((y' : Int) + 1) * g.width ≤ g.height * g.width :=
      mul_le_mul_of_nonneg_right hy'h (le_of_lt hw)
    have h3 : ((y' : Int) + 1) * g.width = (y' : Int) * g.width + g.width := by ring
    have h4 : g.height * g.width = g.width * g.height := by ring
    linarith

theorem convertedOut_outside (srcY srcU srcV dst : Plane) (g : Geometry) (i : Int)
    (h : i < 0 ∨ g.width * g.height ≤ i) :
    convertedOut srcY srcU srcV g dst i = dst i := by
  apply applyWrites_of_not_mem
  intro hmem
  obtain ⟨h0, hlt⟩ := traceWrites_idx_bounds srcY srcU srcV g i hmem
  rcases h with h | h
  · linarith
  · linarith

theorem clamp_nonneg (v : Int) : 0 ≤ clamp v := by
  unfold clamp
  split
  · omega
  · split <;> omega

theorem clamp_le_255 (v : Int) : clamp v ≤ 255 := by
  unfold clamp
  split
  · omega
  · split <;> omega

theorem packPixel_hiByte (r gc b : Int) (hr : r.toNat < 256) (hg : gc.toNat < 256)
    (hb : b.toNat < 256) : packPixel r gc b >>> 24 = 0xFF := by
  have hrr : r.toNat <<< 16 < 2 ^ 24 := by
    rw [Nat.shiftLeft_eq]
    calc r.toNat * 2 ^ 16 < 256 * 2 ^ 16 := by
          exact Nat.mul_lt_mul_of_lt_of_le hr (le_refl _) (by norm_num)
      _ = 2 ^ 24 := by norm_num
  have hgg : gc.toNat <<< 8 < 2 ^ 24 := by
    rw [Nat.shiftLeft_eq]
    calc gc.toNat * 2 ^ 8 < 256 * 2 ^ 8 := by
          exact Nat.mul_lt_mul_of_lt_of_le hg (le_refl _) (by norm_num)
      _ ≤ 2 ^ 24 := by norm_num
  have hbb : b.toNat < 2 ^ 24 := by omega
  apply Nat.eq_of_testBit_eq
  intro i
  have hpow : (2 : Nat) ^ 24 ≤ 2 ^ (24 + i) := Nat.pow_le_pow_right (by norm_num) (by omega)
  rw [Nat.testBit_shiftRight]
  unfold packPixel
  rw [Nat.testBit_or, Nat.testBit_or, Nat.testBit_or]
  rw [Nat.testBit_lt_two_pow (lt_of_lt_of_le hrr hpow)]
  rw [Nat.testBit_lt_two_pow (lt_of_lt_of_le hgg hpow)]
  rw [Nat.testBit_lt_two_pow (lt_of_lt_of_le hbb hpow)]
  rw [Nat.testBit_shiftLeft]
  simp

theorem uvIdx_zero (g : Geometry) (x y : Nat) (hx : x ≤ 1) (hy : y ≤ 1) : uvIdx g x y = 0 := by
  unfold uvIdx
  have h1 : x / 2 = 0 := Nat.div_eq_of_lt (by omega)
  have h2 : y / 2 = 0 := Nat.div_eq_of_lt (by omega)
  rw [h1, h2]
  simp

/-- Claim C1: for every pixel (x, y) with 0 ≤ x < width and
0 ≤ y < height, the value the converter finally stores at output index
y*width+x equals the spec formula: Y read at y*yRowStride+x, U and V
read at (y/2)*uvRowStride+(x/2)*uvPixelStride (floor division) and
centred by subtracting 128, R = clamp(Y + trunc(1.402*V)),
G = clamp(Y - trunc(0.344136*U) - trunc(0.714136*V)),
B = clamp(Y + trunc(1.772*U)), where clamp caps into [0, 255] and
trunc is truncation toward zero of the binary32 product. -/
theorem claim1_pixel_formula (srcY srcU srcV dst : Plane) (g : Geometry) (x y : Nat)
    (hx : x < g.width.toNat) (hy : y < g.height.toNat) :
    convertedOut srcY srcU srcV g dst ((y : Int) * g.width + (x : Int)) =
      specPixel srcY srcU srcV g x y := by
  rw [convertedOut_at srcY srcU srcV dst g x y hx hy]
  rfl

/-- Claim C2: for every pixel written on a successful call, the 32 bit
value stored at outBuffer[y*width+x] is
0xFF000000 ||| (R <<< 16) ||| (G <<< 8) ||| B, and its highest byte is
0xFF. -/
theorem claim2_pack_and_alpha (srcY srcU srcV dst : Plane) (g : Geometry) (x y : Nat)
    (hx : x < g.width.toNat) (hy : y < g.height.toNat) :
    convertedOut srcY srcU srcV g dst ((y : Int) * g.width + (x : Int)) =
      (0xFF000000 |||
        ((rOf (lumaAt srcY g x y) (chromaV srcV g x y)).toNat <<< 16) |||
        ((gOf (lumaAt srcY g x y) (chromaU srcU g x y) (chromaV srcV g x y)).toNat <<< 8) |||
        (bOf (lumaAt srcY g x y) (chromaU srcU g x y)).toNat) ∧
    convertedOut srcY srcU srcV g dst ((y : Int) * g.width + (x : Int)) >>> 24 = 0xFF := by
  have h1 := convertedOut_at srcY srcU srcV dst g x y hx hy
  constructor
  · rw [h1]
    rfl
  · rw [h1]
    show packPixel _ _ _ >>> 24 = 0xFF
    apply packPixel_hiByte
    · have ha := clamp_le_255 (lumaAt srcY g x y + truncF32Mul c1402s 23 (chromaV srcV g x y))
      have hb := clamp_nonneg (lumaAt srcY g x y + truncF32Mul c1402s 23 (chromaV srcV g x y))
      unfold rOf
      omega
    · have ha := clamp_le_255 (lumaAt srcY g x y - truncF32Mul c0344136s 25 (chromaU srcU g x y)
        - truncF32Mul c0714136s 24 (chromaV srcV g x y))
      have hb := clamp_nonneg (lumaAt srcY g x y - truncF32Mul c0344136s 25 (chromaU srcU g x y)
        - truncF32Mul c0714136s 24 (chromaV srcV g x y))
      unfold gOf
      omega
    · have ha := clamp_le_255 (lumaAt srcY g x y + truncF32Mul c1772s 23 (chromaU srcU g x y))
      have hb := clamp_nonneg (lumaAt srcY g x y + truncF32Mul c1772s 23 (chromaU srcU g x y))
      unfold bOf
      omega

/-- Claim C3: if any of the four buffers fails to resolve, the call
returns with the output buffer unchanged and exactly one diagnostic
log entry, and this is the only condition the component detects: with
all four buffers resolved no log entry is emitted. -/
theorem claim3_null_buffers (yB uB vB oB : Option Plane) (g : Geometry) :
    ((yB = none ∨ uB = none ∨ vB = none ∨ oB = none) →
      (convertYuvToRgb yB uB vB g oB).outBuf = oB ∧
      (convertYuvToRgb yB uB vB g oB).logs = ["Invalid buffers"]) ∧
    ((∃ sy, yB = some sy) → (∃ su, uB = some su) → (∃ sv, vB = some sv) →
      (∃ d, oB = some d) → (convertYuvToRgb yB uB vB g oB).logs = []) := by
  cases yB <;> cases uB <;> cases vB <;> cases oB <;> simp [convertYuvToRgb]

/-- Claim C4: on the concrete 2 by 2 frame with yRowStride 2,
uvRowStride 1, uvPixelStride 1, luma bytes all 16 and chroma bytes all
128, every one of the four output pixels equals 0xFF101010. -/
theorem claim4_concrete_scenario :
    convertedOut yPlane22 uPlane22 vPlane22 g22 dst0 0 = 0xFF101010 ∧
    convertedOut yPlane22 uPlane22 vPlane22 g22 dst0 1 = 0xFF101010 ∧
    convertedOut yPlane22 uPlane22 vPlane22 g22 dst0 2 = 0xFF101010 ∧
    convertedOut yPlane22 uPlane22 vPlane22 g22 dst0 3 = 0xFF101010 := by decide

/-- Claim C5, counterexample to the claim as stated: on a 4 by 4 frame
whose luma bytes differ between positions (0,0) and (1,0) (255 and 0),
raising the shared chroma byte V[0] from 128 to 178 changes the red
channel of output pixel (1,0) by 70 but leaves the red channel of
output pixel (0,0) unchanged (it is clamped at 255), so the claimed
equal delta across the four covered pixels fails. -/
theorem claim5_counterexample :
    ¬ ((Int.ofNat ((convertedOut yPlane44 uPlane44 vPlane44B g44 dst0 0 >>> 16) &&& 0xFF) -
        Int.ofNat ((convertedOut yPlane44 uPlane44 vPlane44A g44 dst0 0 >>> 16) &&& 0xFF)) =
       (Int.ofNat ((convertedOut yPlane44 uPlane44 vPlane44B g44 dst0 1 >>> 16) &&& 0xFF) -
        Int.ofNat ((convertedOut yPlane44 uPlane44 vPlane44A g44 dst0 1 >>> 16) &&& 0xFF))) := by
  decide

/-- Claim C5 as amended: for a 4 by 4 frame the four luma positions
(0,0),(1,0),(0,1),(1,1) all read the chroma pair at uvIdx 0, each of
the four output pixels is the fixed packing of its own luma with
chroma terms computed from the shared bytes U[0] and V[0] alone (hence
the pre-clamp chroma terms change by the same delta at all four when
only those bytes change, and pixels with equal luma change
identically), while changing only the luma byte of one of the four
positions changes no other output pixel of the frame. -/
theorem claim5_amended_subsampling (g : Geometry) (srcY srcY2 srcU srcV dst dst2 : Plane)
    (hw : g.width = 4) (hh : g.height = 4) (hyr : 4 ≤ g.yRowStride)
    (a b : Nat) (ha : a ≤ 1) (hb : b ≤ 1)
    (hYonly : ∀ i : Int, i ≠ yIdx g a b → srcY2 i = srcY i) :
    (∀ x y : Nat, x ≤ 1 → y ≤ 1 → uvIdx g x y = 0) ∧
    (∀ x y : Nat, x ≤ 1 → y ≤ 1 →
      convertedOut srcY srcU srcV g dst ((y : Int) * g.width + (x : Int)) =
        packPixel
          (rOf (lumaAt srcY g x y) ((Int.ofNat (srcV 0 &&& 0xFF)) - 128))
          (gOf (lumaAt srcY g x y) ((Int.ofNat (srcU 0 &&& 0xFF)) - 128)
            ((Int.ofNat (srcV 0 &&& 0xFF)) - 128))
          (bOf (lumaAt srcY g x y) ((Int.ofNat (srcU 0 &&& 0xFF)) - 128))) ∧
    (∀ x y : Nat, x < 4 → y < 4 → ¬(x = a ∧ y = b) →
      convertedOut srcY2 srcU srcV g dst2 ((y : Int) * g.width + (x : Int)) =
        convertedOut srcY srcU srcV g dst ((y : Int) * g.width + (x : Int))) := by
  refine ⟨fun x y hx hy => uvIdx_zero g x y hx hy, fun x y hx hy => ?_, fun x y hx hy hne => ?_⟩
  · have hxw : x < g.width.toNat := by omega
    have hyh : y < g.height.toNat := by omega
    rw [convertedOut_at srcY srcU srcV dst g x y hxw hyh]
    unfold pixelAt chromaU chromaV
    rw [uvIdx_zero g x y hx hy]
  · have hxw : x < g.width.toNat := by omega
    have hyh : y < g.height.toNat := by omega
    rw [convertedOut_at srcY2 srcU srcV dst2 g x y hxw hyh,
        convertedOut_at srcY srcU srcV dst g x y hxw hyh]
    unfold pixelAt lumaAt
    rw [hYonly (yIdx g x y) ?hne2]
    case hne2 =>
      intro he
      unfold yIdx at he
      have h1 : (x : Int) < g.yRowStride := by omega
      have h2 : (a : Int) < g.yRowStride := by omega
      obtain ⟨hy', hx'⟩ := writeIdx_inj h1 h2 he
      exact hne ⟨hx', hy'⟩

/-- Claim C6: on a successful call with positive dimensions, every one
of the width*height output slots is written exactly once, every write
lands inside [0, width*height), and every slot outside that range
keeps its initial value. -/
theorem claim6_coverage (srcY srcU srcV dst : Plane) (g : Geometry)
    (hw : 0 < g.width) (hh : 0 < g.height) :
    (∀ i : Int, 0 ≤ i → i < g.width * g.height →
      ((traceWrites srcY srcU srcV g).map Prod.fst).count i = 1) ∧
    (∀ j ∈ (traceWrites srcY srcU srcV g).map Prod.fst,
      0 ≤ j ∧ j < g.width * g.height) ∧
    (∀ i : Int, i < 0 ∨ g.width * g.height ≤ i →
      convertedOut srcY srcU srcV g dst i = dst i) := by
  refine ⟨fun i h0 hlt => ?_, fun j hj => traceWrites_idx_bounds srcY srcU srcV g j hj,
    fun i h => convertedOut_outside srcY srcU srcV dst g i h⟩
  have hw0 : 0 < g.width.toNat := by omega
  have hh0 : 0 < g.height.toNat := by omega
  have hiN : i.toNat < g.width.toNat * g.height.toNat := by
    have h2 : ((g.width.toNat * g.height.toNat : Nat) : Int) = g.width * g.height := by
      push_cast
      rw [Int.toNat_of_nonneg (le_of_lt hw), Int.toNat_of_nonneg (le_of_lt hh)]
    have h1 : ((i.toNat : Nat) : Int) = i := Int.toNat_of_nonneg h0
    have h3 := hlt
    rw [← h1, ← h2] at h3
    exact_mod_cast h3
  have hxw : i.toNat % g.width.toNat < g.width.toNat := Nat.mod_lt _ hw0
  have hyh : i.toNat / g.width.toNat < g.height.toNat := by
    rw [Nat.div_lt_iff_lt_mul hw0]
    calc i.toNat < g.width.toNat * g.height.toNat := hiN
      _ = g.height.toNat * g.width.toNat := Nat.mul_comm _ _
  have hidx : ((i.toNat / g.width.toNat : Nat) : Int) * g.width +
      ((i.toNat % g.width.toNat : Nat) : Int) = i := by
    have h4 : g.width.toNat * (i.toNat / g.width.toNat) + i.toNat % g.width.toNat = i.toNat :=
      Nat.div_add_mod i.toNat g.width.toNat
    have h5 : ((g.width.toNat : Nat) : Int) * ((i.toNat / g.width.toNat : Nat) : Int) +
        ((i.toNat % g.width.toNat : Nat) : Int) = ((i.toNat : Nat) : Int) := by
      exact_mod_cast congrArg (fun n => ((n : Nat) : Int)) h4
    rw [Int.toNat_of_nonneg (le_of_lt hw), Int.toNat_of_nonneg h0] at h5
    rw [Int.mul_comm]
    exact h5
  rw [← hidx]
  exact traceWrites_count srcY srcU srcV g _ _ hxw hyh

/-- Claim C7: the conversion is deterministic and pure: two
invocations with identical buffers and identical geometry produce
identical results. -/
theorem claim7_deterministic (yB1 uB1 vB1 oB1 : Option Plane) (g1 : Geometry)
    (yB2 uB2 vB2 oB2 : Option Plane) (g2 : Geometry)
    (hy : yB1 = yB2) (hu : uB1 = uB2) (hv : vB1 = vB2) (ho : oB1 = oB2) (hg : g1 = g2) :
    convertYuvToRgb yB1 uB1 vB1 g1 oB1 = convertYuvToRgb yB2 uB2 vB2 g2 oB2 := by
  rw [hy, hu, hv, ho, hg]

/-- Claim C8: for Y=0 and centred U=V=0 the channels satisfy R=G=B=Y;
any channel formula value above 255 is clamped to 255 and any value
below 0 is clamped to 0; in particular Y=255 with centred V=127 gives
R=255. -/
theorem claim8_clamp_boundary :
    (rOf 0 0 = 0 ∧ gOf 0 0 0 = 0 ∧ bOf 0 0 = 0) ∧
    (∀ v : Int, 255 < v → clamp v = 255) ∧
    (∀ v : Int, v < 0 → clamp v = 0) ∧
    rOf 255 127 = 255 := by
  refine ⟨by decide, fun v hv => ?_, fun v hv => ?_, by decide⟩
  · unfold clamp
    rw [if_neg (by omega), if_pos hv]
  · unfold clamp
    rw [if_pos hv]

/-- Claim C9: with all four buffers resolved but width ≤ 0 or
height ≤ 0, the loops perform no write, no log entry is emitted, and
every output slot keeps its initial value: a silent no-op. -/
theorem claim9_nonpositive_dims (srcY srcU srcV dst : Plane) (g : Geometry)
    (h : g.width ≤ 0 ∨ g.height ≤ 0) :
    traceWrites srcY srcU srcV g = [] ∧
    (convertYuvToRgb (some srcY) (some srcU) (some srcV) g (some dst)).logs = [] ∧
    ∀ i : Int, convertedOut srcY srcU srcV g dst i = dst i := by
  have ht : traceWrites srcY srcU srcV g = [] := by
    rcases h with h | h
    · unfold traceWrites
      rw [List.flatMap_eq_nil_iff]
      intro y hy
      unfold rowWrites
      rw [Int.toNat_of_nonpos h]
      rfl
    · unfold traceWrites
      rw [Int.toNat_of_nonpos h]
      rfl
  refine ⟨ht, rfl, fun i => ?_⟩
  unfold convertedOut
  rw [ht]
  rfl

/-- Claim C10: the output value at slot y*width+x is a function of the
three input bytes yPlane[yIdx], uPlane[uvIdx], vPlane[uvIdx] alone:
two input states that agree on those bytes produce the same final
value at that slot, whatever the rest of the planes and the initial
output buffer hold. -/
theorem claim10_noninterference (srcY1 srcU1 srcV1 srcY2 srcU2 srcV2 dst1 dst2 : Plane)
    (g : Geometry) (x y : Nat)
    (hx : x < g.width.toNat) (hy : y < g.height.toNat)
    (hY : srcY1 (yIdx g x y) = srcY2 (yIdx g x y))
    (hU : srcU1 (uvIdx g x y) = srcU2 (uvIdx g x y))
    (hV : srcV1 (uvIdx g x y) = srcV2 (uvIdx g x y)) :
    convertedOut srcY1 srcU1 srcV1 g dst1 ((y : Int) * g.width + (x : Int)) =
      convertedOut srcY2 srcU2 srcV2 g dst2 ((y : Int) * g.width + (x : Int)) := by
  rw [convertedOut_at srcY1 srcU1 srcV1 dst1 g x y hx hy,
      convertedOut_at srcY2 srcU2 srcV2 dst2 g x y hx hy]
  unfold pixelAt lumaAt chromaU chromaV
  rw [hY, hU, hV]

/-- Witness for claim C1 at the concrete 2 by 2 frame, pixel (1,1). -/
theorem claim1_witness :
    convertedOut yPlane22 uPlane22 vPlane22 g22 dst0
        (((1 : Nat) : Int) * g22.width + ((1 : Nat) : Int)) =
      specPixel yPlane22 uPlane22 vPlane22 g22 1 1 :=
  claim1_pixel_formula yPlane22 uPlane22 vPlane22 dst0 g22 1 1 (by decide) (by decide)

/-- Witness for claim C2 at the concrete 2 by 2 frame, pixel (0,1). -/
theorem claim2_witness :
    convertedOut yPlane22 uPlane22 vPlane22 g22 dst0
        (((1 : Nat) : Int) * g22.width + ((0 : Nat) : Int)) =
      (0xFF000000 |||
        ((rOf (lumaAt yPlane22 g22 0 1) (chromaV vPlane22 g22 0 1)).toNat <<< 16) |||
        ((gOf (lumaAt yPlane22 g22 0 1) (chromaU uPlane22 g22 0 1)
          (chromaV vPlane22 g22 0 1)).toNat <<< 8) |||
        (bOf (lumaAt yPlane22 g22 0 1) (chromaU uPlane22 g22 0 1)).toNat) ∧
    convertedOut yPlane22 uPlane22 vPlane22 g22 dst0
        (((1 : Nat) : Int) * g22.width + ((0 : Nat) : Int)) >>> 24 = 0xFF :=
  claim2_pack_and_alpha yPlane22 uPlane22 vPlane22 dst0 g22 0 1 (by decide) (by decide)

/-- Witness for claim C3 with an unresolvable luma buffer. -/
theorem claim3_witness :
    (convertYuvToRgb none (some uPlane22) (some vPlane22) g22 (some dst0)).outBuf =
      some dst0 ∧
    (convertYuvToRgb none (some uPlane22) (some vPlane22) g22 (some dst0)).logs =
      ["Invalid buffers"] :=
  (claim3_null_buffers none (some uPlane22) (some vPlane22) (some dst0) g22).1 (Or.inl rfl)

/-- Witness for the amended claim C5 on the concrete 4 by 4 frame. -/
theorem claim5_witness :
    uvIdx g44 1 1 = 0 ∧
    convertedOut zeroPlane uPlane44 vPlane44A g44 dst0
        (((1 : Nat) : Int) * g44.width + ((1 : Nat) : Int)) =
      packPixel
        (rOf (lumaAt zeroPlane g44 1 1) ((Int.ofNat (vPlane44A 0 &&& 0xFF)) - 128))
        (gOf (lumaAt zeroPlane g44 1 1) ((Int.ofNat (uPlane44 0 &&& 0xFF)) - 128)
          ((Int.ofNat (vPlane44A 0 &&& 0xFF)) - 128))
        (bOf (lumaAt zeroPlane g44 1 1) ((Int.ofNat (uPlane44 0 &&& 0xFF)) - 128)) ∧
    convertedOut yPlane44W uPlane44 vPlane44A g44 dst9
        (((0 : Nat) : Int) * g44.width + ((1 : Nat) : Int)) =
      convertedOut zeroPlane uPlane44 vPlane44A g44 dst0
        (((0 : Nat) : Int) * g44.width + ((1 : Nat) : Int)) := by
  have h := claim5_amended_subsampling g44 zeroPlane yPlane44W uPlane44 vPlane44A dst0 dst9
    rfl rfl (by decide) 0 0 (by decide) (by decide)
    (fun i hi => by
      have h0 : i ≠ 0 := fun he => hi (by rw [he]; decide)
      simp [yPlane44W, zeroPlane, h0])
  exact ⟨h.1 1 1 (by decide) (by decide), h.2.1 1 1 (by decide) (by decide),
    h.2.2 1 0 (by decide) (by decide) (by decide)⟩

/-- Witness for claim C6 on the concrete 2 by 2 frame. -/
theorem claim6_witness :
    ((traceWrites yPlane22 uPlane22 vPlane22 g22).map Prod.fst).count 0 = 1 ∧
    convertedOut yPlane22 uPlane22 vPlane22 g22 dst0 (-1) = dst0 (-1) := by
  have h := claim6_coverage yPlane22 uPlane22 vPlane22 dst0 g22 (by decide) (by decide)
  exact ⟨h.1 0 (by decide) (by decide), h.2.2 (-1) (Or.inl (by decide))⟩

/-- Witness for claim C7: a repeated concrete invocation. -/
theorem claim7_witness :
    convertYuvToRgb (some yPlane22) (some uPlane22) (some vPlane22) g22 (some dst0) =
      convertYuvToRgb (some yPlane22) (some uPlane22) (some vPlane22) g22 (some dst0) :=
  claim7_deterministic (some yPlane22) (some uPlane22) (some vPlane22) (some dst0) g22
    (some yPlane22) (some uPlane22) (some vPlane22) (some dst0) g22 rfl rfl rfl rfl rfl

/-- Witness for claim C8: concrete clamped values. -/
theorem claim8_witness : clamp 300 = 255 ∧ clamp (-5) = 0 :=
  ⟨claim8_clamp_boundary.2.1 300 (by decide), claim8_clamp_boundary.2.2.1 (-5) (by decide)⟩

/-- Witness for claim C9 on a zero width geometry. -/
theorem claim9_witness :
    traceWrites yPlane22 uPlane22 vPlane22 g0w = [] ∧
    (convertYuvToRgb (some yPlane22) (some uPlane22) (some vPlane22) g0w (some dst0)).logs =
      [] ∧
    convertedOut yPlane22 uPlane22 vPlane22 g0w dst0 5 = dst0 5 := by
  have h := claim9_nonpositive_dims yPlane22 uPlane22 vPlane22 dst0 g0w (Or.inl (by decide))
  exact ⟨h.1, h.2.1, h.2.2 5⟩

/-- Witness for claim C10: two runs differing only in the initial
output buffer agree at slot (1,0). -/
theorem claim10_witness :
    convertedOut yPlane22 uPlane22 vPlane22 g22 dst0
        (((0 : Nat) : Int) * g22.width + ((1 : Nat) : Int)) =
      convertedOut yPlane22 uPlane22 vPlane22 g22 dst9
        (((0 : Nat) : Int) * g22.width + ((1 : Nat) : Int)) :=
  claim10_noninterference yPlane22 uPlane22 vPlane22 yPlane22 uPlane22 vPlane22 dst0 dst9
    g22 1 0 (by decide) (by decide) rfl rfl rfl

end YuvConverter
